import Mathlib

/-!
Verification of the trigger-decision engine of `mozci` (`mozci/mozci.py`,
`mozci/ci_manager.py`) against its design specification.

The Python module is shallowly embedded below.  External collaborators
(the build-status query source, pushlog, the builder catalog, the
platform/dependency mapper, URL reachability) are modelled as fields of
an `Env` record, since their behaviour is not part of this repository's
decision logic.  Stateful code (the session scheduling ledger, the
backend calls issued) is modelled by explicit state passing: every
trigger-issuing function returns the updated session state together with
the list of backend calls it issued.  Python exceptions are modelled
with `Except`.
-/

/-- Job status constants imported from `mozci.query_jobs`
(PENDING, RUNNING, SUCCESS, WARNING, UNKNOWN, COALESCED, FAILURE,
EXCEPTION, RETRY). -/
inductive Status where
  | pending
  | running
  | unknown
  | success
  | warning
  | failure
  | exception
  | retry
  | coalesced
deriving DecidableEq, Repr

/-- The `properties` dictionary of a completed job's status payload, as
consumed by `_find_files` (`mozci.py` lines 214-242): an optional
`packageUrl`, an optional `testPackagesUrl` and an optional legacy
`testsUrl`. -/
structure JobProps where
  packageUrl : Option String
  testPackagesUrl : Option String
  testsUrl : Option String
deriving DecidableEq, Repr

/-- A scheduled job as observed through the query source.

`statusResult` models `get_job_status(job)`: `.error ()` stands for the
`buildjson.BuildjsonException` raised for bug 1159279 (the only
retrieval error the engine knows about, caught at `mozci.py` line 135).

`props` models the `properties` key of the job-status payload used by
`_find_files`; `none` covers every payload shape on which `_find_files`
raises (empty status, missing `properties` key, missing `buildername`
key inside it).

`requestId` models `get_buildapi_request_id` for this job. -/
structure Job where
  statusResult : Except Unit Status
  props : Option JobProps
  requestId : Nat
deriving Repr

/-- The external collaborators of `mozci.py`, fixed for one session:
dependency mapping (`is_downstream`, `determine_upstream_builder`),
repository mapping (`query_repo_name_from_buildername`, whose output is
determined by the external repository catalog), the builder catalog
(`valid_builder` membership), revision validation (`pushlog.valid_revision`,
keyed here by repository name and revision), the two job-query sources
(`BuildApi()` used inside `_determine_trigger_objective`, and the global
`QUERY_SOURCE` used by `trigger_range` and the backfill filter), the
backend request identifier lookup and URL reachability
(`_all_urls_reachable`, per URL). -/
structure Env where
  isDownstream : String → Bool
  upstream : String → String
  repoName : String → String
  validBuilder : String → Bool
  validRevision : String → String → Bool
  buildApiJobs : String → String → String → List Job
  queryJobs : String → String → String → List Job
  requestIdOf : Job → Nat
  reachable : String → Bool

/-- File extraction from a job's `properties` (`_find_files` lines
234-240): the `packageUrl` if present, then `testPackagesUrl` preferred
over the legacy `testsUrl`. -/
def extractFiles (p : JobProps) : List String :=
  (match p.packageUrl with
   | some u => [u]
   | none => []) ++
  (match p.testPackagesUrl with
   | some u => [u]
   | none =>
     match p.testsUrl with
     | some u => [u]
     | none => [])

/-- `_find_files` (`mozci.py` lines 214-242).  When the status payload
has no usable `properties` the Python code raises (the assertion at line
219 or the explicit `raise Exception` at line 226); this is the `.error`
branch and it is **not** caught by the scanning loop of
`_determine_trigger_objective`. -/
def findFiles (j : Job) : Except String (List String) :=
  match j.props with
  | none => .error "The status of the job is expected to have a properties key"
  | some p => .ok (extractFiles p)

/-- `_all_urls_reachable(files)`, applied pointwise through the
environment's reachability oracle. -/
def allUrlsReachable (env : Env) (files : List String) : Bool :=
  files.all env.reachable

/-- The five counters of `_status_summary`: successful, pending,
running, coalesced and failed jobs. -/
structure StatusSummary where
  successful : Nat
  pending : Nat
  running : Nat
  coalesced : Nat
  failed : Nat
deriving DecidableEq, Repr

/-- The all-zero summary. -/
def initSummary : StatusSummary := ⟨0, 0, 0, 0, 0⟩

/-- One iteration of the classification loop of `_status_summary`
(`mozci.py` lines 81-92): five independent `if` tests on the status. -/
def bucketAdd (s : Status) (t : StatusSummary) : StatusSummary :=
  let t1 := if s = .pending then { t with pending := t.pending + 1 } else t
  let t2 := if s = .running ∨ s = .unknown then
              { t1 with running := t1.running + 1 } else t1
  let t3 := if s = .success then
              { t2 with successful := t2.successful + 1 } else t2
  let t4 := if s = .coalesced then
              { t3 with coalesced := t3.coalesced + 1 } else t3
  if s = .failure ∨ s = .warning ∨ s = .exception ∨ s = .retry then
    { t4 with failed := t4.failed + 1 }
  else t4

/-- `_status_summary(jobs)` (`mozci.py` lines 71-94).  The loop body and
the classification tests are taken verbatim from the source; the
counter initialization follows the intended behaviour that the design
document declares authoritative, because the source's own
initialization (`status_summary = { successful = 0, ... }`) is not a
valid construct and the incremented names are never bound — see the
verdict on the corresponding claim.  A status-retrieval failure inside
the loop is not caught there and propagates (`.error`). -/
def statusSummaryE : List Job → Except Unit StatusSummary
  | [] => .ok initSummary
  | j :: rest =>
    match j.statusResult with
    | .error e => .error e
    | .ok s =>
      match statusSummaryE rest with
      | .error e => .error e
      | .ok t => .ok (bucketAdd s t)

/-- The "potential jobs" count of `trigger_range` (`mozci.py` line 404):
pending + running + successful + failed, excluding coalesced. -/
def potentialJobs (t : StatusSummary) : Nat :=
  t.pending + t.running + t.successful + t.failed

/-- The session scheduling ledger (`SCHEDULING_MANAGER`): for each
revision, the list of builders already handed to `trigger` during this
session, in order and with duplicates. -/
structure SessionState where
  ledger : String → List String

/-- The empty ledger at process start. -/
def initialSession : SessionState := ⟨fun _ => []⟩

/-- `_unique_build_request(buildername, revision)` (`mozci.py` lines
53-69): downstream builders are always allowed; a build builder is
allowed only when it is not yet recorded for the revision. -/
def uniqueBuildRequest (env : Env) (ledger : String → List String)
    (buildername revision : String) : Bool :=
  if env.isDownstream buildername then
    true
  else
    !((ledger revision).contains buildername)

/-- One call into the scheduling backend: either
`buildapi.trigger_arbitrary_job` (builder, revision, dry-run flag) or
`buildapi.make_retrigger_request` (request id, count, dry-run flag). -/
inductive BackendCall where
  | trig (builder revision : String) (files : Option (List String)) (dryRun : Bool)
  | retrig (requestId : Nat) (count : Nat) (dryRun : Bool)
deriving DecidableEq, Repr

/-- The `trigger` helper (`mozci.py` lines 451-466): unconditionally
append the builder to the revision's ledger entry, then issue the
backend call (`buildapi.trigger_arbitrary_job`). -/
def trigger (env : Env) (st : SessionState) (builder revision : String)
    (files : Option (List String)) (dryRun : Bool) :
    SessionState × BackendCall :=
  (⟨fun r => if r = revision then st.ledger r ++ [builder] else st.ledger r⟩,
   .trig builder revision files dryRun)

/-- The accumulator of the scanning loop of
`_determine_trigger_objective` (`mozci.py` lines 127-158): the working
build and its files, the in-flight (running/pending/unknown) candidate
and the failed candidate. -/
structure ScanState where
  workingJob : Option Job
  workingFiles : Option (List String)
  runningJob : Option Job
  failedJob : Option Job
deriving Repr

/-- The empty scan accumulator. -/
def initScan : ScanState := ⟨none, none, none, none⟩

/-- The scanning loop of `_determine_trigger_objective` (`mozci.py`
lines 132-158).  A `BuildjsonException` from `get_job_status` skips the
job; a running/pending/unknown status records the in-flight candidate
and continues; otherwise `_find_files` runs (its failures propagate) and
either the working build is found (non-empty, all-reachable files —
scanning stops) or the job becomes the failed candidate. -/
def scanBuildJobs (env : Env) : List Job → ScanState → Except String ScanState
  | [], st => .ok st
  | j :: rest, st =>
    match j.statusResult with
    | .error _ => scanBuildJobs env rest st
    | .ok s =>
      if s = .running ∨ s = .pending ∨ s = .unknown then
        scanBuildJobs env rest { st with runningJob := some j }
      else
        match findFiles j with
        | .error e => .error e
        | .ok fs =>
          if fs ≠ [] ∧ allUrlsReachable env fs then
            .ok { st with workingJob := some j, workingFiles := some fs }
          else
            scanBuildJobs env rest { st with failedJob := some j }

/-- `_determine_trigger_objective(revision, buildername,
trigger_build_if_missing)` (`mozci.py` lines 97-202).  Returns the
builder to trigger (if any) and the files to pass it.  The `assert
valid_builder(build_buildername)` failure and any `_find_files` failure
are `.error`. -/
def determineTriggerObjective (env : Env) (ledger : String → List String)
    (revision buildername : String) (triggerBuildIfMissing : Bool) :
    Except String (Option String × Option (List String)) :=
  if ¬ env.validBuilder (env.upstream buildername) then
    .error "Our platforms mapping system has failed."
  else if env.upstream buildername = buildername then
    .ok (some (env.upstream buildername), none)
  else
    match scanBuildJobs env
        (env.buildApiJobs (env.repoName buildername) revision
          (env.upstream buildername)) initScan with
    | .error e => .error e
    | .ok st =>
      if st.workingJob.isSome then
        .ok (some buildername, st.workingFiles)
      else if st.runningJob.isSome then
        .ok (none, none)
      else if st.failedJob.isSome then
        .ok (none, none)
      else if ¬ triggerBuildIfMissing ∨
              ¬ uniqueBuildRequest env ledger (env.upstream buildername) revision then
        .ok (none, none)
      else
        .ok (some (env.upstream buildername), none)

/-- The repeated-trigger loop of `trigger_job` (`mozci.py` lines
369-372): call `trigger` once per requested instance, threading the
session state. -/
def triggerLoop (env : Env) (builder revision : String)
    (files : Option (List String)) :
    Nat → SessionState → SessionState × List BackendCall
  | 0, st => (st, [])
  | n + 1, st =>
    let (st1, c) := trigger env st builder revision files false
    let (st2, cs) := triggerLoop env builder revision files n st1
    (st2, c :: cs)

/-- The dispatch at the bottom of `trigger_job` (`mozci.py` lines
362-372): in dry-run mode `trigger` is called exactly once (only to
record and log), otherwise once per requested instance. -/
def issueTriggers (env : Env) (st : SessionState) (builder revision : String)
    (times : Nat) (files : Option (List String)) (dryRun : Bool) :
    SessionState × List BackendCall :=
  if dryRun then
    let (st1, c) := trigger env st builder revision files true
    (st1, [c])
  else
    triggerLoop env builder revision files times st

/-- `trigger_job(revision, buildername, times, files, dry_run, ...,
trigger_build_if_missing)` (`mozci.py` lines 313-379).  An invalid
revision returns without any action; an invalid builder calls
`exit(-1)` (modelled as an error); explicit files short-circuit the
objective resolution (`_all_urls_reachable` is called there but its
result is discarded by the source); otherwise the resolver picks the
builder, and a resolver answer different from the requested builder
forces the repeat count down to one. -/
def triggerJob (env : Env) (st : SessionState) (revision buildername : String)
    (times : Nat) (files : Option (List String))
    (dryRun triggerBuildIfMissing : Bool) :
    Except String (SessionState × List BackendCall) :=
  if ¬ env.validRevision (env.repoName buildername) revision then
    .ok (st, [])
  else if ¬ env.validBuilder buildername then
    .error "The builder requested is invalid"
  else
    match files with
    | some fs =>
      .ok (issueTriggers env st buildername revision times (some fs) dryRun)
    | none =>
      match determineTriggerObjective env st.ledger revision buildername
              triggerBuildIfMissing with
      | .error e => .error e
      | .ok (b2t, fs) =>
        match b2t with
        | some b =>
          .ok (issueTriggers env st b revision
            (if b ≠ buildername ∧ times ≠ 1 then 1 else times) fs dryRun)
        | none => .ok (st, [])

/-- The per-revision body of `trigger_range` (`mozci.py` lines 390-442):
skip invalid revisions; count the potential jobs among the matching
jobs; do nothing when they already satisfy the request; retrigger the
first matching job for the deficit when a matching job exists and no
explicit files were supplied; otherwise delegate to `trigger_job` for
the deficit. -/
def triggerRangeRev (env : Env) (st : SessionState) (buildername rev : String)
    (times : Nat) (files : Option (List String))
    (dryRun triggerBuildIfMissing : Bool) :
    Except String (SessionState × List BackendCall) :=
  if ¬ env.validRevision (env.repoName buildername) rev then
    .ok (st, [])
  else
    match statusSummaryE (env.queryJobs (env.repoName buildername) rev buildername) with
    | .error _ => .error "BuildjsonException in status summary"
    | .ok t =>
      if times ≤ potentialJobs t then
        .ok (st, [])
      else
        match env.queryJobs (env.repoName buildername) rev buildername, files with
        | m :: _, none =>
          .ok (st, [.retrig (env.requestIdOf m) (times - potentialJobs t) dryRun])
        | _, _ =>
          triggerJob env st rev buildername (times - potentialJobs t) files dryRun
            triggerBuildIfMissing

/-- `trigger_range(buildername, revisions, times, ...)` (`mozci.py`
lines 382-448): process every revision in order, threading the session
state and accumulating the backend calls. -/
def triggerRange (env : Env) (st : SessionState) (buildername : String)
    (revisions : List String) (times : Nat) (files : Option (List String))
    (dryRun triggerBuildIfMissing : Bool) :
    Except String (SessionState × List BackendCall) :=
  match revisions with
  | [] => .ok (st, [])
  | r :: rest =>
    match triggerRangeRev env st buildername r times files dryRun
            triggerBuildIfMissing with
    | .error e => .error e
    | .ok (st1, c1) =>
      match triggerRange env st1 buildername rest times files dryRun
              triggerBuildIfMissing with
      | .error e => .error e
      | .ok (st2, c2) => .ok (st2, c1 ++ c2)

/-- The scanning loop of `_filter_backfill_revlist` (`mozci.py` lines
547-566): walk the revisions in order, stop (and drop the stopping
revision and everything after it) at the first revision whose matching
jobs satisfy the mode's condition, otherwise keep the revision. -/
def filterBackfillGo (env : Env) (repoNm buildername : String)
    (onlySuccessful : Bool) : List String → Except Unit (List String)
  | [] => .ok []
  | r :: rest =>
    match statusSummaryE (env.queryJobs repoNm r buildername) with
    | .error e => .error e
    | .ok t =>
      if onlySuccessful then
        if 0 < t.successful then .ok []
        else
          match filterBackfillGo env repoNm buildername onlySuccessful rest with
          | .error e => .error e
          | .ok tail => .ok (r :: tail)
      else
        if ¬ (env.queryJobs repoNm r buildername).isEmpty ∧
            0 < t.successful + t.pending + t.running + t.failed then .ok []
        else
          match filterBackfillGo env repoNm buildername onlySuccessful rest with
          | .error e => .error e
          | .ok tail => .ok (r :: tail)

/-- `_filter_backfill_revlist(buildername, revisions, only_successful)`
(`mozci.py` lines 533-569).  The informational log line at the top
indexes `revisions[0]` and `revisions[-1]`, so an empty input raises an
IndexError (modelled as `.error`) before any scanning happens. -/
def filterBackfillRevlist (env : Env) (buildername : String)
    (revisions : List String) (onlySuccessful : Bool) :
    Except Unit (List String) :=
  match revisions with
  | [] => .error ()
  | _ => filterBackfillGo env (env.repoName buildername) buildername
           onlySuccessful revisions

/-- Modelled from the spec: the revision-history collaborator
`revisions_around(repo_url, revision, before, after)`
(`pushlog.query_revisions_range_from_revision_before_and_after`, whose
code is not among the sources under verification).  Over a push history
listed oldest-first it returns the revisions whose push index lies
between `i - before` and `i + after` inclusive, where `i` is the
pivot's index: the window reaching from `before` pushes before the
pivot to `after` pushes after it, so a negative `after` ends the window
before the pivot itself. -/
def revisionsAround (history : List String) (pivot : String)
    (before after : Int) : List String :=
  match history.indexOf? pivot with
  | none => []
  | some i =>
    (history.take ((i : Int) + after + 1).toNat).drop ((i : Int) - before).toNat

/-- The candidate-window computation of `manual_backfill` (`mozci.py`
lines 507-522): request `max_revisions` revisions before the pivot and
`-1` after it (the source comments: "We do not want the current job in
the revision to be included"), then filter in any-status mode. -/
def manualBackfillRevlist (env : Env) (history : List String)
    (revision buildername : String) (maxRevisions : Nat) :
    Except Unit (List String) :=
  filterBackfillRevlist env buildername
    (revisionsAround history revision (maxRevisions : Int) (-1)) false

/-- `manual_backfill(revision, buildername, max_revisions, dry_run)`
(`mozci.py` lines 507-530): compute and filter the candidate window,
then `trigger_range` with one requested instance per remaining
revision and no explicit files. -/
def manualBackfill (env : Env) (st : SessionState) (history : List String)
    (revision buildername : String) (maxRevisions : Nat) (dryRun : Bool) :
    Except String (SessionState × List BackendCall) :=
  match manualBackfillRevlist env history revision buildername maxRevisions with
  | .error _ => .error "IndexError in backfill filtering"
  | .ok filtered =>
    triggerRange env st buildername filtered 1 none dryRun true

/-- `find_backfill_revlist(repo_url, revision, max_revisions,
buildername)` (`mozci.py` lines 572-579): the automatic-backfill
window, `max_revisions - 1` revisions before the pivot through the
pivot itself, filtered in successful-only mode. -/
def findBackfillRevlist (env : Env) (history : List String)
    (revision buildername : String) (maxRevisions : Nat) :
    Except Unit (List String) :=
  filterBackfillRevlist env buildername
    (revisionsAround history revision ((maxRevisions : Int) - 1) 0) true

/-- One caller-level entry point into the engine during a session:
either a `trigger_job` call or a `trigger_range` call, in both cases
with no explicit artifact files. -/
inductive Invocation where
  | job (revision buildername : String) (times : Nat)
      (dryRun triggerBuildIfMissing : Bool)
  | range (buildername : String) (revisions : List String) (times : Nat)
      (dryRun triggerBuildIfMissing : Bool)

/-- The builder requested by an invocation. -/
def Invocation.requestedBuilder : Invocation → String
  | .job _ bn _ _ _ => bn
  | .range bn _ _ _ _ => bn

/-- Run one invocation against the session state. -/
def runInvocation (env : Env) (st : SessionState) :
    Invocation → Except String (SessionState × List BackendCall)
  | .job rev bn times dry tbm => triggerJob env st rev bn times none dry tbm
  | .range bn revs times dry tbm =>
    triggerRange env st bn revs times none dry tbm

/-- Run a list of invocations in order, accumulating backend calls. -/
def runSessionAux (env : Env) :
    List Invocation → SessionState → List BackendCall →
    Except String (SessionState × List BackendCall)
  | [], st, acc => .ok (st, acc)
  | inv :: rest, st, acc =>
    match runInvocation env st inv with
    | .error e => .error e
    | .ok (st1, calls) => runSessionAux env rest st1 (acc ++ calls)

/-- A whole process session: the ledger starts empty. -/
def runSession (env : Env) (invs : List Invocation) :
    Except String (SessionState × List BackendCall) :=
  runSessionAux env invs initialSession []

/-- Does this backend call actually reach the backend (not dry-run) as a
trigger of builder `b` on revision `r`? -/
def isTrigFor (b r : String) : BackendCall → Bool
  | .trig b1 r1 _ dry => b1 == b && r1 == r && !dry
  | .retrig _ _ _ => false

/-- The number of non-dry-run backend trigger calls issued for the pair
(builder `b`, revision `r`). -/
def buildTriggerCount (calls : List BackendCall) (b r : String) : Nat :=
  (calls.filter (isTrigFor b r)).length

/-!  Concrete environments and jobs used by witnesses and counterexamples. -/

/-- A successful job with no recorded properties. -/
def jobSuccess : Job := ⟨.ok .success, none, 11⟩

/-- A pending job. -/
def jobPending : Job := ⟨.ok .pending, none, 12⟩

/-- A coalesced job. -/
def jobCoalesced : Job := ⟨.ok .coalesced, none, 13⟩

/-- A completed job whose properties carry a package and a test-packages
URL. -/
def jobWorking : Job := ⟨.ok .success, some ⟨some "pkg", some "tests", none⟩, 14⟩

/-- An in-flight (pending) job, listed before the working one in the
counterexample environment. -/
def jobInflight : Job := ⟨.ok .pending, none, 15⟩

/-- A completed (failed) job whose properties yield no files. -/
def jobNoFiles : Job := ⟨.ok .failure, some ⟨none, none, none⟩, 16⟩

/-- A job whose status retrieval raises `BuildjsonException`. -/
def jobFetchError : Job := ⟨.error (), none, 17⟩

/-- Environment A: builders `T` and `T2` are downstream tests with
upstream build builder `B`; everything is valid; no jobs exist; all
URLs reachable. -/
def envA : Env :=
  ⟨fun b => b == "T" || b == "T2",
   fun b => if b = "T" ∨ b = "T2" then "B" else b,
   fun _ => "m",
   fun _ => true,
   fun _ _ => true,
   fun _ _ _ => [],
   fun _ _ _ => [],
   fun j => j.requestId,
   fun _ => true⟩

/-- Environment B: like `envA`, but the build-side query source lists an
in-flight job first and a working build after it for builder `B`. -/
def envB : Env :=
  ⟨fun b => b == "T" || b == "T2",
   fun b => if b = "T" ∨ b = "T2" then "B" else b,
   fun _ => "m",
   fun _ => true,
   fun _ _ => true,
   fun _ _ b => if b = "B" then [jobInflight, jobWorking] else [],
   fun _ _ _ => [],
   fun j => j.requestId,
   fun _ => true⟩

/-- Environment C: like `envA`, but the range-side query source reports
two successful jobs and one pending job for every builder. -/
def envC : Env :=
  ⟨fun b => b == "T" || b == "T2",
   fun b => if b = "T" ∨ b = "T2" then "B" else b,
   fun _ => "m",
   fun _ => true,
   fun _ _ => true,
   fun _ _ _ => [],
   fun _ _ _ => [jobSuccess, jobSuccess, jobPending],
   fun j => j.requestId,
   fun _ => true⟩

/-- The backend calls of a session outcome (empty on an aborted
session). -/
def sessionCalls (e : Except String (SessionState × List BackendCall)) :
    List BackendCall :=
  match e with
  | .ok (_, calls) => calls
  | .error _ => []

/-!  ## Claim C3 -/

/-- Each status increments exactly one of the five buckets. -/
theorem bucketAdd_total (s : Status) (t : StatusSummary) :
    (bucketAdd s t).successful + (bucketAdd s t).pending +
      (bucketAdd s t).running + (bucketAdd s t).coalesced +
      (bucketAdd s t).failed =
    (t.successful + t.pending + t.running + t.coalesced + t.failed) + 1 := by
  cases s <;> simp [bucketAdd] <;> omega

/-- C3 (intended behaviour; the shipped `_status_summary` cannot produce
it, see the claim verdict): whenever the status summary is computed, the
five buckets partition the job list — their sum is the length of the
input, so no job is dropped or double-counted. -/
theorem statusSummary_partition (jobs : List Job) (t : StatusSummary)
    (h : statusSummaryE jobs = .ok t) :
    t.successful + t.pending + t.running + t.coalesced + t.failed =
      jobs.length := by
  induction jobs generalizing t with
  | nil =>
    simp [statusSummaryE] at h
    subst h
    rfl
  | cons j rest ih =>
    cases hj : j.statusResult with
    | error e => simp [statusSummaryE, hj] at h
    | ok s =>
      cases hr : statusSummaryE rest with
      | error e => simp [statusSummaryE, hj, hr] at h
      | ok t0 =>
        simp only [statusSummaryE, hj, hr, Except.ok.injEq] at h
        subst h
        have h1 := bucketAdd_total s t0
        have h2 := ih t0 hr
        simp only [List.length_cons]
        omega

/-- Witness for `statusSummary_partition` at a concrete job list. -/
theorem statusSummary_partition_witness :
    statusSummaryE [jobSuccess, jobSuccess, jobPending] = .ok ⟨2, 1, 0, 0, 0⟩ ∧
    2 + 1 + 0 + 0 + 0 = ([jobSuccess, jobSuccess, jobPending] : List Job).length :=
  ⟨rfl, statusSummary_partition [jobSuccess, jobSuccess, jobPending] ⟨2, 1, 0, 0, 0⟩ rfl⟩

/-!  ## Claim C4 -/

/-- C4: when the potential jobs (pending + running + successful +
failed, coalesced excluded) for a revision already reach the requested
count, the range scheduler issues no backend call at all for that
revision and leaves the session untouched. -/
theorem rangeScheduler_sufficiency (env : Env) (st : SessionState)
    (buildername rev : String) (times : Nat) (files : Option (List String))
    (dryRun triggerBuildIfMissing : Bool) (t : StatusSummary)
    (hsum : statusSummaryE
      (env.queryJobs (env.repoName buildername) rev buildername) = .ok t)
    (hpot : times ≤ potentialJobs t) :
    triggerRangeRev env st buildername rev times files dryRun
      triggerBuildIfMissing = .ok (st, []) := by
  unfold triggerRangeRev
  split
  · rfl
  · rw [hsum]
    simp [hpot]

/-- Witness for `rangeScheduler_sufficiency`: three requested instances,
two successful and one pending job already present. -/
theorem rangeScheduler_sufficiency_witness :
    statusSummaryE (envC.queryJobs (envC.repoName "T") "r" "T") =
      .ok ⟨2, 1, 0, 0, 0⟩ ∧
    3 ≤ potentialJobs ⟨2, 1, 0, 0, 0⟩ ∧
    triggerRangeRev envC initialSession "T" "r" 3 none false true =
      .ok (initialSession, []) :=
  ⟨rfl, by decide,
   rangeScheduler_sufficiency envC initialSession "T" "r" 3 none false true
     ⟨2, 1, 0, 0, 0⟩ rfl (by decide)⟩

/-!  ## Claim C5 -/

/-- C5: when the potential jobs fall short of the requested count, at
least one matching job exists and no explicit files were supplied, the
range scheduler issues exactly one retrigger request through the first
matching job's backend request id, for the deficit, and no fresh
trigger. -/
theorem rangeScheduler_retrigger (env : Env) (st : SessionState)
    (buildername rev : String) (times : Nat)
    (dryRun triggerBuildIfMissing : Bool) (m : Job) (rest : List Job)
    (t : StatusSummary)
    (hvalid : env.validRevision (env.repoName buildername) rev = true)
    (hmatch : env.queryJobs (env.repoName buildername) rev buildername =
      m :: rest)
    (hsum : statusSummaryE (m :: rest) = .ok t)
    (hpot : potentialJobs t < times) :
    triggerRangeRev env st buildername rev times none dryRun
      triggerBuildIfMissing =
      .ok (st, [.retrig (env.requestIdOf m) (times - potentialJobs t)
                  dryRun]) := by
  unfold triggerRangeRev
  rw [hmatch]
  simp [hvalid, hsum, Nat.not_le_of_lt hpot, Nat.not_le.mpr hpot]

/-- Witness for `rangeScheduler_retrigger`: five requested instances
against three potential jobs retriggers the first matching job twice. -/
theorem rangeScheduler_retrigger_witness :
    envC.validRevision (envC.repoName "T") "r" = true ∧
    envC.queryJobs (envC.repoName "T") "r" "T" =
      jobSuccess :: [jobSuccess, jobPending] ∧
    statusSummaryE (jobSuccess :: [jobSuccess, jobPending]) =
      .ok ⟨2, 1, 0, 0, 0⟩ ∧
    potentialJobs ⟨2, 1, 0, 0, 0⟩ < 5 ∧
    triggerRangeRev envC initialSession "T" "r" 5 none false true =
      .ok (initialSession, [.retrig 11 2 false]) :=
  ⟨rfl, rfl, rfl, by decide,
   rangeScheduler_retrigger envC initialSession "T" "r" 5 false true
     jobSuccess [jobSuccess, jobPending] ⟨2, 1, 0, 0, 0⟩ rfl rfl rfl
     (by decide)⟩

/-!  ## Claim C10 -/

/-- C10: the `trigger` helper always appends the builder to the
revision's ledger entry — for every builder (build or test), every
file argument and both dry-run modes — so entries may repeat and may
name non-build builders; consequently, once any trigger (dry-run
included) has gone through for a build builder, the dedup check reports
that (revision, build-builder) pair as already triggered. -/
theorem trigger_always_records (env : Env) (st : SessionState)
    (b r : String) (files : Option (List String)) (dryRun : Bool)
    (hb : env.isDownstream b = false) :
    (∀ (st1 : SessionState) (b1 r1 : String) (fs1 : Option (List String))
       (d1 : Bool),
       (trigger env st1 b1 r1 fs1 d1).1.ledger r1 = st1.ledger r1 ++ [b1]) ∧
    uniqueBuildRequest env (trigger env st b r files dryRun).1.ledger b r
      = false := by
  constructor
  · intro st1 b1 r1 fs1 d1
    simp [trigger]
  · simp [trigger, uniqueBuildRequest, hb, List.contains, List.elem_eq_mem]

/-- Witness for `trigger_always_records`: a dry-run trigger of the
build builder `B` marks the pair as triggered for the session. -/
theorem trigger_always_records_witness :
    envA.isDownstream "B" = false ∧
    ((∀ (st1 : SessionState) (b1 r1 : String) (fs1 : Option (List String))
        (d1 : Bool),
        (trigger envA st1 b1 r1 fs1 d1).1.ledger r1 = st1.ledger r1 ++ [b1]) ∧
     uniqueBuildRequest envA
       (trigger envA initialSession "B" "r" none true).1.ledger "B" "r"
       = false) :=
  ⟨rfl, trigger_always_records envA initialSession "B" "r" none true rfl⟩

/-!  ## Claim C7 -/

/-- C7: a job whose status retrieval fails with the backend
data-retrieval error is skipped silently — the scan of the build jobs
behaves exactly as if the job were absent, so such a failure never
aborts nor otherwise changes the resolution. -/
theorem scan_skips_retrieval_errors (env : Env) (l1 l2 : List Job)
    (j : Job) (st : ScanState) (hj : j.statusResult = .error ()) :
    scanBuildJobs env (l1 ++ j :: l2) st = scanBuildJobs env (l1 ++ l2) st := by
  induction l1 generalizing st with
  | nil =>
    simp [scanBuildJobs, hj]
  | cons a l1 ih =>
    simp only [List.cons_append, scanBuildJobs]
    split
    · exact ih st
    · split
      · exact ih _
      · split
        · rfl
        · split
          · rfl
          · exact ih _

/-- Witness for `scan_skips_retrieval_errors`: a retrieval-error job
between two ordinary jobs leaves the scan unchanged. -/
theorem scan_skips_retrieval_errors_witness :
    jobFetchError.statusResult = .error () ∧
    scanBuildJobs envA [jobPending, jobFetchError, jobNoFiles] initScan =
      scanBuildJobs envA [jobPending, jobNoFiles] initScan :=
  ⟨rfl, scan_skips_retrieval_errors envA [jobPending] [jobNoFiles]
    jobFetchError initScan rfl⟩

/-!  ## Claim C8 -/

/-- C8: a completed (non-in-flight) build job whose artifact extraction
yields no file, or whose files are not all reachable, is recorded as
the failed candidate and the scan continues with the remaining jobs —
no error is raised for it. -/
theorem scan_failed_candidate (env : Env) (j : Job) (l : List Job)
    (st : ScanState) (s : Status) (p : JobProps)
    (hs : j.statusResult = .ok s)
    (hns : ¬ (s = .running ∨ s = .pending ∨ s = .unknown))
    (hp : j.props = some p)
    (hbad : extractFiles p = [] ∨ allUrlsReachable env (extractFiles p) = false) :
    scanBuildJobs env (j :: l) st =
      scanBuildJobs env l { st with failedJob := some j } := by
  simp only [scanBuildJobs, hs, findFiles, hp]
  rw [if_neg hns]
  rcases hbad with hbad | hbad
  · simp [hbad]
  · simp [hbad]

/-- Witness for `scan_failed_candidate`: the file-less failed job is
remembered as the failed candidate and scanning proceeds to the next
job. -/
theorem scan_failed_candidate_witness :
    jobNoFiles.statusResult = .ok .failure ∧
    ¬ (Status.failure = .running ∨ Status.failure = .pending ∨
       Status.failure = .unknown) ∧
    jobNoFiles.props = some ⟨none, none, none⟩ ∧
    extractFiles ⟨none, none, none⟩ = [] ∧
    scanBuildJobs envA [jobNoFiles, jobWorking] initScan =
      scanBuildJobs envA [jobWorking] { initScan with failedJob := some jobNoFiles } :=
  ⟨rfl, by decide, rfl, rfl,
   scan_failed_candidate envA jobNoFiles [jobWorking] initScan .failure
     ⟨none, none, none⟩ rfl (by decide) rfl (Or.inl rfl)⟩

/-!  ## Claim C1 — counterexample -/

/-- C1 as stated is false: `B` is a build builder (not downstream), the
caller supplies no artifact files, and a single `trigger_job` call for
`B` with `times = 2` issues two backend trigger calls for the pair
(`"r"`, `B`) — the dedup check is bypassed when the requested builder
is itself the build builder, and `times` is not reduced. -/
theorem dedup_bypassed_for_direct_build_request :
    envA.isDownstream "B" = false ∧
    runSession envA [.job "r" "B" 2 false true] =
      .ok ((trigger envA (trigger envA initialSession "B" "r" none false).1
              "B" "r" none false).1,
           [.trig "B" "r" none false, .trig "B" "r" none false]) ∧
    buildTriggerCount
      (sessionCalls (runSession envA [.job "r" "B" 2 false true])) "B" "r"
      = 2 :=
  ⟨rfl, rfl, rfl⟩

/-!  ## Claim C2 — counterexample and amended behaviour -/

/-- C2 as stated is false: with the in-flight job listed *before* the
working build, the scan does not stop at the in-flight job — it keeps
extracting artifacts from later completed jobs, and resolution selects
the working build (returning the requested test builder `T` with the
working build's files) even though the working build appears later in
iteration order. -/
theorem resolver_inflight_does_not_stop_scan :
    envB.buildApiJobs (envB.repoName "T") "r" (envB.upstream "T") =
      [jobInflight, jobWorking] ∧
    jobInflight.statusResult = .ok .pending ∧
    jobWorking.statusResult = .ok .success ∧
    determineTriggerObjective envB (fun _ => []) "r" "T" true =
      .ok (some "T", some ["pkg", "tests"]) :=
  ⟨rfl, rfl, rfl, rfl⟩

/-- C2 amended: the scan records a pending/running/unknown job as the
in-flight candidate and *continues* scanning later jobs for completed
artifacts; a working build is selected over an in-flight build
regardless of their relative order — for a job set with one working
job and one in-flight job, in either order, resolution returns the
originally requested builder together with the working build's files. -/
theorem resolver_working_over_inflight (env : Env)
    (ledger : String → List String) (rev buildername : String)
    (triggerBuildIfMissing : Bool) (w i : Job) (sw si : Status) (p : JobProps)
    (hvB : env.validBuilder (env.upstream buildername) = true)
    (hne : env.upstream buildername ≠ buildername)
    (hw : w.statusResult = .ok sw)
    (hsw : ¬ (sw = .running ∨ sw = .pending ∨ sw = .unknown))
    (hp : w.props = some p)
    (hfne : extractFiles p ≠ [])
    (hreach : allUrlsReachable env (extractFiles p) = true)
    (hi : i.statusResult = .ok si)
    (hsi : si = .running ∨ si = .pending ∨ si = .unknown)
    (hjobs : env.buildApiJobs (env.repoName buildername) rev
        (env.upstream buildername) = [w, i] ∨
      env.buildApiJobs (env.repoName buildername) rev
        (env.upstream buildername) = [i, w]) :
    determineTriggerObjective env ledger rev buildername
      triggerBuildIfMissing = .ok (some buildername, some (extractFiles p)) := by
  have hscan : ∃ rj fj, scanBuildJobs env
      (env.buildApiJobs (env.repoName buildername) rev
        (env.upstream buildername)) initScan =
      .ok ⟨some w, some (extractFiles p), rj, fj⟩ := by
    rcases hjobs with hjobs | hjobs <;> rw [hjobs]
    · refine ⟨none, none, ?_⟩
      simp only [scanBuildJobs, hw, findFiles, hp]
      rw [if_neg hsw]
      simp [hfne, hreach, initScan]
    · refine ⟨some i, none, ?_⟩
      simp only [scanBuildJobs, hi, hw, findFiles, hp]
      rw [if_pos hsi, if_neg hsw]
      simp [hfne, hreach, initScan]
  obtain ⟨rj, fj, hscan⟩ := hscan
  simp only [determineTriggerObjective, hvB, hscan]
  simp [hne]

/-- Witness for `resolver_working_over_inflight` at the in-flight-first
environment `envB`. -/
theorem resolver_working_over_inflight_witness :
    envB.validBuilder (envB.upstream "T") = true ∧
    envB.upstream "T" ≠ "T" ∧
    jobWorking.props = some ⟨some "pkg", some "tests", none⟩ ∧
    envB.buildApiJobs (envB.repoName "T") "r" (envB.upstream "T") =
      [jobInflight, jobWorking] ∧
    determineTriggerObjective envB (fun _ => []) "r" "T" true =
      .ok (some "T", some (extractFiles ⟨some "pkg", some "tests", none⟩)) :=
  ⟨rfl, by decide, rfl, rfl,
   resolver_working_over_inflight envB (fun _ => []) "r" "T" true
     jobWorking jobInflight .success .pending ⟨some "pkg", some "tests", none⟩
     rfl (by decide) rfl (by decide) rfl (by decide) rfl rfl (by decide)
     (Or.inr rfl)⟩

/-!  ## Claim C6 — counterexample and amended behaviour -/

/-- The any-status stopping condition of the backfill filter
(`mozci.py` line 551): some matching job exists and at least one
matching job counts as successful, pending, running or failed
(coalesced-only revisions do not stop the scan). -/
def anyStatusStop (env : Env) (repoNm buildername rev : String) : Bool :=
  match statusSummaryE (env.queryJobs repoNm rev buildername) with
  | .error _ => false
  | .ok t =>
    !(env.queryJobs repoNm rev buildername).isEmpty &&
      decide (0 < t.successful + t.pending + t.running + t.failed)

/-- The successful-only stopping condition of the backfill filter
(`mozci.py` line 560): at least one successful matching job. -/
def successStop (env : Env) (repoNm buildername rev : String) : Bool :=
  match statusSummaryE (env.queryJobs repoNm rev buildername) with
  | .error _ => false
  | .ok t => decide (0 < t.successful)

/-- When every job's status is retrievable, the summary is defined. -/
theorem statusSummaryE_ok (l : List Job)
    (h : ∀ j ∈ l, ∃ s, j.statusResult = .ok s) :
    ∃ t, statusSummaryE l = .ok t := by
  induction l with
  | nil => exact ⟨initSummary, rfl⟩
  | cons j rest ih =>
    obtain ⟨s, hs⟩ := h j (by simp)
    obtain ⟨t, ht⟩ := ih (fun j1 hj1 => h j1 (by simp [hj1]))
    exact ⟨bucketAdd s t, by simp [statusSummaryE, hs, ht]⟩

/-- A revision stopping the successful-only scan also stops the
any-status scan. -/
theorem successStop_imp_anyStatusStop (env : Env)
    (repoNm buildername rev : String)
    (h : successStop env repoNm buildername rev = true) :
    anyStatusStop env repoNm buildername rev = true := by
  unfold successStop at h
  unfold anyStatusStop
  cases hsum : statusSummaryE (env.queryJobs repoNm rev buildername) with
  | error e => rw [hsum] at h; simp at h
  | ok t =>
    rw [hsum] at h
    simp only [decide_eq_true_eq] at h
    cases hl : env.queryJobs repoNm rev buildername with
    | nil =>
      rw [hl] at hsum
      simp only [statusSummaryE, Except.ok.injEq] at hsum
      rw [← hsum] at h
      simp [initSummary] at h
    | cons a l =>
      rw [hl] at hsum
      simp only [Bool.and_eq_true, Bool.not_eq_true', decide_eq_true_eq]
      exact ⟨by simp [List.isEmpty], by omega⟩

/-- A pointwise-stronger predicate yields a larger takeWhile prefix. -/
theorem takeWhile_mono_pred {α : Type} (p q : α → Bool) (l : List α)
    (h : ∀ x ∈ l, p x = true → q x = true) :
    ∀ x ∈ l.takeWhile p, x ∈ l.takeWhile q := by
  induction l with
  | nil => intro x hx; simp at hx
  | cons a l ih =>
    intro x hx
    rw [List.takeWhile_cons] at hx
    by_cases hpa : p a = true
    · rw [if_pos hpa] at hx
      rw [List.takeWhile_cons, if_pos (h a (by simp) hpa)]
      rcases List.mem_cons.mp hx with hx | hx
      · exact hx ▸ List.mem_cons_self _ _
      · exact List.mem_cons_of_mem _ (ih (fun x hxl hp => h x (by simp [hxl]) hp) x hx)
    · rw [if_neg hpa] at hx
      simp at hx

/-- The scanning loop of the backfill filter computes the takeWhile
prefix of the non-stopping revisions, provided every job status in the
scanned range is retrievable. -/
theorem filterBackfillGo_takeWhile (env : Env) (repoNm buildername : String)
    (onlySuccessful : Bool) (revisions : List String)
    (hfetch : ∀ rev ∈ revisions, ∀ j ∈ env.queryJobs repoNm rev buildername,
      ∃ s, j.statusResult = .ok s) :
    filterBackfillGo env repoNm buildername onlySuccessful revisions =
      .ok (revisions.takeWhile (fun rev =>
        !(if onlySuccessful then successStop env repoNm buildername rev
          else anyStatusStop env repoNm buildername rev))) := by
  induction revisions with
  | nil => rfl
  | cons r rest ih =>
    obtain ⟨t, ht⟩ := statusSummaryE_ok _ (hfetch r (by simp))
    have ihr := ih (fun rv hrv => hfetch rv (by simp [hrv]))
    cases onlySuccessful with
    | true =>
      simp only [filterBackfillGo, ht, if_true, ihr, List.takeWhile_cons]
      by_cases hstop : 0 < t.successful
      · rw [if_pos hstop]
        have hS : successStop env repoNm buildername r = true := by
          unfold successStop; rw [ht]; simp [hstop]
        simp [hS]
      · rw [if_neg hstop]
        have hS : successStop env repoNm buildername r = false := by
          unfold successStop; rw [ht]; simp [hstop]
        simp [hS, ihr]
    | false =>
      simp only [filterBackfillGo, ht, Bool.false_eq_true, if_false, ihr,
        List.takeWhile_cons]
      by_cases hstop : ¬ (env.queryJobs repoNm r buildername).isEmpty ∧
          0 < t.successful + t.pending + t.running + t.failed
      · rw [if_pos hstop]
        have hA : anyStatusStop env repoNm buildername r = true := by
          unfold anyStatusStop
          rw [ht]
          simp only [Bool.and_eq_true, Bool.not_eq_true', decide_eq_true_eq]
          exact ⟨by simpa using hstop.1, hstop.2⟩
        simp [hA]
      · rw [if_neg hstop]
        have hA : anyStatusStop env repoNm buildername r = false := by
          unfold anyStatusStop
          rw [ht]
          rcases not_and_or.mp hstop with hstop | hstop
          · simp only [not_not] at hstop
            simp [hstop]
          · have h0 : t.successful + t.pending + t.running + t.failed = 0 := by
              omega
            simp [h0]
        simp [hA, ihr]

/-- C6 as stated is false on the empty revision list: instead of
returning the entire input (no revision stops the scan), the filter
raises an IndexError in both modes, because its opening log line
indexes the first and last element of the input. -/
theorem backfill_empty_input_raises :
    filterBackfillRevlist envA "T" [] false = .error () ∧
    filterBackfillRevlist envA "T" [] true = .error () :=
  ⟨rfl, rfl⟩

/-- C6 amended (restricted to non-empty inputs, as the counterexample
forces): both backfill modes return the prefix of the input strictly
before the first stopping revision (the entire input when no revision
stops the scan); any-status mode stops exactly at revisions with a
matching job counted as successful, pending, running or failed
(coalesced-only revisions do not stop it), successful-only mode stops
exactly at revisions with a successful matching job, and the
successful-only window always contains the any-status window. -/
theorem backfill_windows (env : Env) (buildername : String)
    (revisions : List String)
    (hne : revisions ≠ [])
    (hfetch : ∀ rev ∈ revisions,
      ∀ j ∈ env.queryJobs (env.repoName buildername) rev buildername,
        ∃ s, j.statusResult = .ok s) :
    filterBackfillRevlist env buildername revisions false =
      .ok (revisions.takeWhile (fun rev =>
        !anyStatusStop env (env.repoName buildername) buildername rev)) ∧
    filterBackfillRevlist env buildername revisions true =
      .ok (revisions.takeWhile (fun rev =>
        !successStop env (env.repoName buildername) buildername rev)) ∧
    ∀ rev, rev ∈ revisions.takeWhile (fun rev =>
        !anyStatusStop env (env.repoName buildername) buildername rev) →
      rev ∈ revisions.takeWhile (fun rev =>
        !successStop env (env.repoName buildername) buildername rev) := by
  obtain ⟨r, rest, rfl⟩ : ∃ r rest, revisions = r :: rest := by
    cases revisions with
    | nil => exact absurd rfl hne
    | cons r rest => exact ⟨r, rest, rfl⟩
  refine ⟨?_, ?_, ?_⟩
  · have h := filterBackfillGo_takeWhile env (env.repoName buildername)
      buildername false (r :: rest) hfetch
    simpa using h
  · have h := filterBackfillGo_takeWhile env (env.repoName buildername)
      buildername true (r :: rest) hfetch
    simpa using h
  · intro rev hrev
    refine takeWhile_mono_pred _ _ _ ?_ rev hrev
    intro x _ hp
    simp only [Bool.not_eq_true'] at hp ⊢
    by_contra hq
    rw [Bool.not_eq_false] at hq
    rw [successStop_imp_anyStatusStop env _ _ _ hq] at hp
    exact absurd hp (by simp)

/-- Witness for `backfill_windows`: with no matching jobs anywhere, both
windows are the whole (non-empty) input. -/
theorem backfill_windows_witness :
    (["r1", "r2"] : List String) ≠ [] ∧
    filterBackfillRevlist envA "T" ["r1", "r2"] false =
      .ok ((["r1", "r2"] : List String).takeWhile (fun rev =>
        !anyStatusStop envA (envA.repoName "T") "T" rev)) ∧
    filterBackfillRevlist envA "T" ["r1", "r2"] true =
      .ok ((["r1", "r2"] : List String).takeWhile (fun rev =>
        !successStop envA (envA.repoName "T") "T" rev)) := by
  have h := backfill_windows envA "T" ["r1", "r2"] (by decide)
    (by intro rev _ j hj; exact absurd hj (by simp [envA]))
  exact ⟨by decide, h.1, h.2.1⟩

/-!  ## Claim C9 — counterexample and amended behaviour -/

/-- C9 as stated is false: for pivot `r4` in a six-revision history and
`max_revisions = 2`, the candidate window passed to any-status
filtering is `[r2, r3]` — the two revisions strictly before the pivot —
and contains neither the revision after the pivot (`r5`, which the
claim says is included) nor the pivot itself, because `manual_backfill`
requests the window with `after = -1`. -/
theorem manual_backfill_excludes_pivot_successor :
    revisionsAround ["r0", "r1", "r2", "r3", "r4", "r5"] "r4" 2 (-1) =
      ["r2", "r3"] ∧
    manualBackfillRevlist envA ["r0", "r1", "r2", "r3", "r4", "r5"] "r4" "T" 2 =
      .ok ["r2", "r3"] ∧
    "r5" ∉ (["r2", "r3"] : List String) :=
  ⟨rfl, rfl, by decide⟩

/-- The first-occurrence index returned by `indexOf?` lies beyond every
earlier position: the element is absent from the prefix before it. -/
theorem not_mem_take_of_indexOf? (l : List String) (a : String) (i : Nat)
    (h : l.indexOf? a = some i) : a ∉ l.take i := by
  induction l generalizing i with
  | nil => simp [List.indexOf?_nil] at h
  | cons b l ih =>
    rw [List.indexOf?_cons] at h
    by_cases hb : b == a
    · rw [if_pos hb] at h
      simp only [Option.some.injEq] at h
      subst h
      simp
    · rw [if_neg hb] at h
      cases hl : l.indexOf? a with
      | none => rw [hl] at h; simp at h
      | some j =>
        rw [hl] at h
        simp only [Option.map_some', Option.some.injEq] at h
        subst h
        simp only [Nat.succ_eq_add_one, List.take_succ_cons, List.mem_cons,
          not_or]
        exact ⟨fun hab => hb (by simp [hab]), ih j hl⟩

/-- C9 amended: the candidate window of manual backfill consists of the
caller-specified number of revisions strictly *before* the pivot — the
pivot itself and the revision after it are excluded (`after = -1`);
the window is then filtered in any-status mode and each remaining
revision is scheduled through the range scheduler with a requested
count of one and no explicit files. -/
theorem manualBackfill_window (env : Env) (st : SessionState)
    (history : List String) (revision buildername : String)
    (maxRevisions : Nat) (dryRun : Bool) (i : Nat)
    (hidx : history.indexOf? revision = some i) :
    revisionsAround history revision (maxRevisions : Int) (-1) =
      (history.take i).drop (i - maxRevisions) ∧
    revision ∉ (history.take i).drop (i - maxRevisions) ∧
    manualBackfill env st history revision buildername maxRevisions dryRun =
      (match filterBackfillRevlist env buildername
          ((history.take i).drop (i - maxRevisions)) false with
       | .error _ => .error "IndexError in backfill filtering"
       | .ok filtered =>
         triggerRange env st buildername filtered 1 none dryRun true) := by
  have hwin : revisionsAround history revision (maxRevisions : Int) (-1) =
      (history.take i).drop (i - maxRevisions) := by
    unfold revisionsAround
    rw [hidx]
    have h1 : ((i : Int) + (-1) + 1).toNat = i := by omega
    have h2 : ((i : Int) - (maxRevisions : Int)).toNat = i - maxRevisions := by
      omega
    show ((history.take ((i : Int) + (-1) + 1).toNat).drop
      ((i : Int) - (maxRevisions : Int)).toNat) = _
    rw [h1, h2]
  refine ⟨hwin, ?_, ?_⟩
  · intro hmem
    exact not_mem_take_of_indexOf? history revision i hidx
      (List.mem_of_mem_drop hmem)
  · unfold manualBackfill manualBackfillRevlist
    rw [hwin]

/-- Witness for `manualBackfill_window` at the six-revision history. -/
theorem manualBackfill_window_witness :
    (["r0", "r1", "r2", "r3", "r4", "r5"] : List String).indexOf? "r4" =
      some 4 ∧
    revisionsAround ["r0", "r1", "r2", "r3", "r4", "r5"] "r4" 2 (-1) =
      ((["r0", "r1", "r2", "r3", "r4", "r5"] : List String).take 4).drop (4 - 2) ∧
    manualBackfill envA initialSession ["r0", "r1", "r2", "r3", "r4", "r5"]
        "r4" "T" 2 false =
      (match filterBackfillRevlist envA "T"
          (((["r0", "r1", "r2", "r3", "r4", "r5"] : List String).take 4).drop
            (4 - 2)) false with
       | .error _ => .error "IndexError in backfill filtering"
       | .ok filtered =>
         triggerRange envA initialSession "T" filtered 1 none false true) := by
  have h := manualBackfill_window envA initialSession
    ["r0", "r1", "r2", "r3", "r4", "r5"] "r4" "T" 2 false 4 (by decide)
  exact ⟨by decide, h.1, h.2.2⟩

/-!  ## Claim C1 — amended behaviour: the session-level dedup invariant -/

/-- The ledger only ever grows. -/
def LedgerMono (st st1 : SessionState) : Prop :=
  ∀ x v, x ∈ st.ledger v → x ∈ st1.ledger v

/-- One step of the dedup invariant for the pair (`b`, `r`): the ledger
grows monotonically, and either no counted trigger call was issued, or
exactly one was, the pair was unrecorded before the step and is
recorded after it. -/
def StepOk (b r : String) (st st1 : SessionState)
    (calls : List BackendCall) : Prop :=
  LedgerMono st st1 ∧
  (buildTriggerCount calls b r = 0 ∨
   (buildTriggerCount calls b r = 1 ∧ b ∉ st.ledger r ∧ b ∈ st1.ledger r))

/-- `LedgerMono` is reflexive. -/
theorem ledgerMono_refl (st : SessionState) : LedgerMono st st :=
  fun _ _ h => h

/-- Counted triggers are additive over call concatenation. -/
theorem buildTriggerCount_append (c1 c2 : List BackendCall) (b r : String) :
    buildTriggerCount (c1 ++ c2) b r =
      buildTriggerCount c1 b r + buildTriggerCount c2 b r := by
  unfold buildTriggerCount
  rw [List.filter_append, List.length_append]

/-- `StepOk` composes: two consecutive valid steps form a valid step. -/
theorem stepOk_comp (b r : String) (st st1 st2 : SessionState)
    (c1 c2 : List BackendCall)
    (h1 : StepOk b r st st1 c1) (h2 : StepOk b r st1 st2 c2) :
    StepOk b r st st2 (c1 ++ c2) := by
  obtain ⟨m1, d1⟩ := h1
  obtain ⟨m2, d2⟩ := h2
  refine ⟨fun x v hx => m2 x v (m1 x v hx), ?_⟩
  rw [buildTriggerCount_append]
  rcases d1 with d1 | ⟨d1, hn1, hi1⟩
  · rcases d2 with d2 | ⟨d2, hn2, hi2⟩
    · left; omega
    · right
      refine ⟨by omega, fun hx => hn2 (m1 b r hx), hi2⟩
  · rcases d2 with d2 | ⟨d2, hn2, hi2⟩
    · right
      exact ⟨by omega, hn1, m2 b r hi1⟩
    · exact absurd hi1 hn2

/-- `trigger` only appends to the ledger. -/
theorem trigger_mono (env : Env) (st : SessionState) (b1 r1 : String)
    (f : Option (List String)) (d : Bool) :
    LedgerMono st (trigger env st b1 r1 f d).1 := by
  intro x v hx
  simp only [trigger]
  split
  · exact List.mem_append_left _ hx
  · exact hx

/-- After `trigger`, the builder is recorded for the revision. -/
theorem trigger_records (env : Env) (st : SessionState) (b1 r1 : String)
    (f : Option (List String)) (d : Bool) :
    b1 ∈ (trigger env st b1 r1 f d).1.ledger r1 := by
  simp [trigger]

/-- The calls of the repeated-trigger loop. -/
theorem triggerLoop_calls (env : Env) (b1 r1 : String)
    (f : Option (List String)) :
    ∀ (n : Nat) (st : SessionState),
    (triggerLoop env b1 r1 f n st).2 =
      List.replicate n (.trig b1 r1 f false) := by
  intro n
  induction n with
  | zero => intro st; rfl
  | succ n ih =>
    intro st
    simp only [triggerLoop, trigger, List.replicate]
    rw [ih]

/-- The repeated-trigger loop only appends to the ledger. -/
theorem triggerLoop_mono (env : Env) (b1 r1 : String)
    (f : Option (List String)) :
    ∀ (n : Nat) (st : SessionState),
    LedgerMono st (triggerLoop env b1 r1 f n st).1 := by
  intro n
  induction n with
  | zero => intro st; exact ledgerMono_refl st
  | succ n ih =>
    intro st x v hx
    simp only [triggerLoop]
    exact ih _ x v (trigger_mono env st b1 r1 f false x v hx)

/-- `issueTriggers` only appends to the ledger. -/
theorem issueTriggers_mono (env : Env) (st : SessionState) (b1 r1 : String)
    (n : Nat) (f : Option (List String)) (d : Bool) :
    LedgerMono st (issueTriggers env st b1 r1 n f d).1 := by
  unfold issueTriggers
  split
  · exact trigger_mono env st b1 r1 f true
  · exact triggerLoop_mono env b1 r1 f n st

/-- A dry-run call is never counted. -/
theorem isTrigFor_dry (b r b1 r1 : String) (f : Option (List String)) :
    isTrigFor b r (.trig b1 r1 f true) = false := by
  simp [isTrigFor]

/-- The counted triggers among `n` repeats of the same call. -/
theorem buildTriggerCount_replicate (n : Nat) (b r b1 r1 : String)
    (f : Option (List String)) :
    buildTriggerCount (List.replicate n (.trig b1 r1 f false)) b r =
      if b1 = b ∧ r1 = r then n else 0 := by
  unfold buildTriggerCount
  induction n with
  | zero => simp
  | succ n ih =>
    rw [List.replicate_succ, List.filter_cons]
    by_cases hbr : b1 = b ∧ r1 = r
    · have : isTrigFor b r (.trig b1 r1 f false) = true := by
        simp [isTrigFor, hbr.1, hbr.2]
      rw [if_pos hbr] at ih
      simp [this, ih, if_pos hbr]
    · have : isTrigFor b r (.trig b1 r1 f false) = false := by
        simp only [isTrigFor, Bool.not_false, Bool.and_true]
        rcases not_and_or.mp hbr with hne | hne <;>
          simp [beq_eq_false_iff_ne, hne]
      rw [if_neg hbr] at ih
      simp [this, ih, if_neg hbr]

/-- The dedup step property of `issueTriggers`: harmless whenever the
issued builder/revision differs from the tracked pair, and a single
recording trigger when it coincides, provided the count is one and the
pair was unrecorded. -/
theorem issueTriggers_stepOk (env : Env) (st : SessionState)
    (b r b1 r1 : String) (n : Nat) (f : Option (List String)) (d : Bool)
    (h : b1 = b ∧ r1 = r → n = 1 ∧ b ∉ st.ledger r) :
    StepOk b r st (issueTriggers env st b1 r1 n f d).1
      (issueTriggers env st b1 r1 n f d).2 := by
  refine ⟨issueTriggers_mono env st b1 r1 n f d, ?_⟩
  by_cases hbr : b1 = b ∧ r1 = r
  · obtain ⟨hb1, hr1⟩ := hbr
    subst hb1
    subst hr1
    obtain ⟨hn, hnot⟩ := h ⟨rfl, rfl⟩
    subst hn
    unfold issueTriggers
    split
    · left
      simp [buildTriggerCount, trigger, isTrigFor]
    · right
      rw [triggerLoop_calls, buildTriggerCount_replicate,
        if_pos (⟨rfl, rfl⟩ : b1 = b1 ∧ r1 = r1)]
      refine ⟨rfl, hnot, ?_⟩
      simp only [triggerLoop]
      exact triggerLoop_mono env b1 r1 f 0 _ b1 r1
        (trigger_records env st b1 r1 f false)
  · left
    unfold issueTriggers
    split
    · simp [buildTriggerCount, trigger, isTrigFor]
    · rw [triggerLoop_calls, buildTriggerCount_replicate, if_neg hbr]

/-- When the dedup check passes for a non-downstream builder, the pair
is unrecorded. -/
theorem uniqueBuildRequest_spec (env : Env) (ledger : String → List String)
    (b rev : String) (hb : env.isDownstream b = false)
    (h : uniqueBuildRequest env ledger b rev = true) : b ∉ ledger rev := by
  unfold uniqueBuildRequest at h
  rw [hb] at h
  simp only [Bool.false_eq_true, if_false, Bool.not_eq_true',
    List.contains, List.elem_eq_mem, decide_eq_false_iff_not] at h
  exact h

/-- A resolver answer naming a builder names either the requested
builder itself, or the upstream build builder after the dedup check
passed. -/
theorem objective_some_cases (env : Env) (ledger : String → List String)
    (rev bn : String) (tbm : Bool) (b1 : String) (fs : Option (List String))
    (h : determineTriggerObjective env ledger rev bn tbm =
      .ok (some b1, fs)) :
    b1 = bn ∨ (b1 = env.upstream bn ∧
      uniqueBuildRequest env ledger (env.upstream bn) rev = true) := by
  unfold determineTriggerObjective at h
  split at h
  · exact absurd h (by simp)
  · split at h
    · left
      simp only [Except.ok.injEq, Prod.mk.injEq, Option.some.injEq] at h
      rename_i heq
      rw [← h.1, heq]
    · split at h
      · exact absurd h (by simp)
      · split at h
        · left
          simp only [Except.ok.injEq, Prod.mk.injEq, Option.some.injEq] at h
          exact h.1.symm
        · split at h
          · exact absurd h (by simp)
          · split at h
            · exact absurd h (by simp)
            · split at h
              · exact absurd h (by simp)
              · right
                simp only [Except.ok.injEq, Prod.mk.injEq,
                  Option.some.injEq] at h
                rename_i hcond
                rw [not_or, not_not, not_not] at hcond
                exact ⟨h.1.symm, hcond.2⟩


/-- The dedup step property of one `trigger_job` call with no explicit
files, for a downstream requested builder `bn` and a tracked build
builder `b`. -/
theorem triggerJob_stepOk (env : Env) (st : SessionState)
    (rev bn : String) (times : Nat) (dry tbm : Bool)
    (b r : String) (st1 : SessionState) (calls : List BackendCall)
    (hbn : env.isDownstream bn = true)
    (hb : env.isDownstream b = false)
    (h : triggerJob env st rev bn times none dry tbm = .ok (st1, calls)) :
    StepOk b r st st1 calls := by
  have hbnb : bn ≠ b := fun he => by rw [he, hb] at hbn; cases hbn
  unfold triggerJob at h
  split at h
  · simp only [Except.ok.injEq, Prod.mk.injEq] at h
    rw [← h.1, ← h.2]
    exact ⟨ledgerMono_refl st, Or.inl rfl⟩
  · split at h
    · exact absurd h (by simp)
    · split at h
      · rename_i fs heq
        exact Option.noConfusion heq
      · split at h
        · exact absurd h (by simp)
        · split at h
          · rename_i fs junk b1 heq
            simp only [Except.ok.injEq] at h
            have step : (b1 = b ∧ rev = r →
                (if b1 ≠ bn ∧ times ≠ 1 then 1 else times) = 1 ∧
                  b ∉ st.ledger r) →
                StepOk b r st
                  (issueTriggers env st b1 rev
                    (if b1 ≠ bn ∧ times ≠ 1 then 1 else times) fs dry).1
                  (issueTriggers env st b1 rev
                    (if b1 ≠ bn ∧ times ≠ 1 then 1 else times) fs dry).2 :=
              issueTriggers_stepOk env st b r b1 rev
                (if b1 ≠ bn ∧ times ≠ 1 then 1 else times) fs dry
            rcases objective_some_cases env st.ledger rev bn tbm b1 fs
                (by rw [← heq]) with hcase | ⟨hup, huniq⟩
            · have hs := step (fun hc =>
                (absurd (hcase.symm.trans hc.1) hbnb : False).elim)
              rw [h] at hs
              exact hs
            · have hs := step ?_
              · rw [h] at hs
                exact hs
              · rintro ⟨hb1, hr1⟩
                have hx : env.upstream bn = b := hup.symm.trans hb1
                have hne : b1 ≠ bn := fun he => hbnb (he.symm.trans hb1)
                have hdb : env.isDownstream (env.upstream bn) = false := by
                  rw [hx]; exact hb
                have hnotmem : env.upstream bn ∉ st.ledger rev :=
                  uniqueBuildRequest_spec env st.ledger (env.upstream bn) rev
                    hdb huniq
                constructor
                · by_cases ht : times = 1 <;> simp [hne, ht]
                · rw [← hx, ← hr1]
                  exact hnotmem
          · simp only [Except.ok.injEq, Prod.mk.injEq] at h
            rw [← h.1, ← h.2]
            exact ⟨ledgerMono_refl st, Or.inl rfl⟩

/-- The dedup step property of one per-revision range-scheduler step
with no explicit files. -/
theorem triggerRangeRev_stepOk (env : Env) (st : SessionState)
    (bn rv : String) (times : Nat) (dry tbm : Bool)
    (b r : String) (st1 : SessionState) (calls : List BackendCall)
    (hbn : env.isDownstream bn = true)
    (hb : env.isDownstream b = false)
    (h : triggerRangeRev env st bn rv times none dry tbm = .ok (st1, calls)) :
    StepOk b r st st1 calls := by
  unfold triggerRangeRev at h
  split at h
  · simp only [Except.ok.injEq, Prod.mk.injEq] at h
    rw [← h.1, ← h.2]
    exact ⟨ledgerMono_refl st, Or.inl rfl⟩
  · split at h
    · exact absurd h (by simp)
    · split at h
      · simp only [Except.ok.injEq, Prod.mk.injEq] at h
        rw [← h.1, ← h.2]
        exact ⟨ledgerMono_refl st, Or.inl rfl⟩
      · split at h
        · simp only [Except.ok.injEq, Prod.mk.injEq] at h
          rw [← h.1, ← h.2]
          refine ⟨ledgerMono_refl st, Or.inl ?_⟩
          simp [buildTriggerCount, isTrigFor]
        · exact triggerJob_stepOk env st rv bn _ dry tbm b r st1 calls
            hbn hb h

/-- The dedup step property of a whole `trigger_range` call with no
explicit files. -/
theorem triggerRange_stepOk (env : Env) (bn : String)
    (revisions : List String) (times : Nat) (dry tbm : Bool)
    (b r : String)
    (hbn : env.isDownstream bn = true)
    (hb : env.isDownstream b = false) :
    ∀ (st st1 : SessionState) (calls : List BackendCall),
    triggerRange env st bn revisions times none dry tbm = .ok (st1, calls) →
    StepOk b r st st1 calls := by
  induction revisions with
  | nil =>
    intro st st1 calls h
    simp only [triggerRange, Except.ok.injEq, Prod.mk.injEq] at h
    rw [← h.1, ← h.2]
    exact ⟨ledgerMono_refl st, Or.inl rfl⟩
  | cons rv rest ih =>
    intro st st1 calls h
    simp only [triggerRange] at h
    split at h
    · exact absurd h (by simp)
    · rename_i stA cA hrev
      split at h
      · exact absurd h (by simp)
      · rename_i stB cB hrest
        simp only [Except.ok.injEq, Prod.mk.injEq] at h
        rw [← h.1, ← h.2]
        exact stepOk_comp b r st stA stB cA cB
          (triggerRangeRev_stepOk env st bn rv times dry tbm b r stA cA
            hbn hb hrev)
          (ih stA stB cB hrest)

/-- The dedup step property of one invocation whose requested builder
is downstream. -/
theorem runInvocation_stepOk (env : Env) (st : SessionState)
    (inv : Invocation) (b r : String) (st1 : SessionState)
    (calls : List BackendCall)
    (hdown : env.isDownstream inv.requestedBuilder = true)
    (hb : env.isDownstream b = false)
    (h : runInvocation env st inv = .ok (st1, calls)) :
    StepOk b r st st1 calls := by
  cases inv with
  | job rev bn times dry tbm =>
    exact triggerJob_stepOk env st rev bn times dry tbm b r st1 calls
      hdown hb h
  | range bn revs times dry tbm =>
    exact triggerRange_stepOk env bn revs times dry tbm b r hdown hb
      st st1 calls h

/-- Running a session suffix from any state is one composed valid
step over the newly issued calls. -/
theorem runSessionAux_stepOk (env : Env) (b r : String)
    (hb : env.isDownstream b = false) :
    ∀ (invs : List Invocation) (st : SessionState) (acc : List BackendCall)
      (st1 : SessionState) (calls : List BackendCall),
    (∀ inv ∈ invs, env.isDownstream inv.requestedBuilder = true) →
    runSessionAux env invs st acc = .ok (st1, calls) →
    ∃ new, calls = acc ++ new ∧ StepOk b r st st1 new := by
  intro invs
  induction invs with
  | nil =>
    intro st acc st1 calls _ h
    simp only [runSessionAux, Except.ok.injEq, Prod.mk.injEq] at h
    exact ⟨[], by rw [← h.2, List.append_nil], by
      rw [← h.1]
      exact ⟨ledgerMono_refl st, Or.inl rfl⟩⟩
  | cons inv rest ih =>
    intro st acc st1 calls hdown h
    simp only [runSessionAux] at h
    split at h
    · exact absurd h (by simp)
    · rename_i stA cA hinv
      obtain ⟨new, hcalls, hstep⟩ := ih stA (acc ++ cA) st1 calls
        (fun i hi => hdown i (List.mem_cons_of_mem inv hi)) h
      refine ⟨cA ++ new, ?_, ?_⟩
      · rw [hcalls, List.append_assoc]
      · exact stepOk_comp b r st stA st1 cA new
          (runInvocation_stepOk env st inv b r stA cA
            (hdown inv (List.mem_cons_self inv rest)) hb hinv)
          hstep

/-- C1 amended (restricted, as the counterexample forces, to sessions
in which every requested builder is a downstream/test builder): for
every sequence of `trigger_job`/`trigger_range` invocations with no
explicit artifact files within one session, at most one non-dry-run
backend trigger call is issued for any given (revision, build-builder)
pair, regardless of how many distinct test builders depending on that
build builder are requested and regardless of the requested times
counts. -/
theorem session_dedup_invariant (env : Env) (invs : List Invocation)
    (st1 : SessionState) (calls : List BackendCall) (b r : String)
    (hdown : ∀ inv ∈ invs, env.isDownstream inv.requestedBuilder = true)
    (hb : env.isDownstream b = false)
    (hrun : runSession env invs = .ok (st1, calls)) :
    buildTriggerCount calls b r ≤ 1 := by
  obtain ⟨new, hcalls, _, hcount⟩ :=
    runSessionAux_stepOk env b r hb invs initialSession [] st1 calls
      hdown hrun
  rw [hcalls, List.nil_append]
  rcases hcount with hc | ⟨hc, _, _⟩
  · omega
  · omega

/-- Witness for `session_dedup_invariant`: two test builders `T` and
`T2` sharing the upstream build builder `B`, each requested three
times on the same revision; the session issues exactly one build
trigger for (`"r"`, `B`). -/
theorem session_dedup_invariant_witness :
    (∀ inv ∈ [Invocation.job "r" "T" 3 false true,
              Invocation.job "r" "T2" 3 false true],
      envA.isDownstream inv.requestedBuilder = true) ∧
    envA.isDownstream "B" = false ∧
    runSession envA [Invocation.job "r" "T" 3 false true,
                     Invocation.job "r" "T2" 3 false true] =
      .ok ((trigger envA initialSession "B" "r" none false).1,
           [.trig "B" "r" none false]) ∧
    buildTriggerCount [.trig "B" "r" none false] "B" "r" ≤ 1 := by
  refine ⟨by decide, rfl, rfl, ?_⟩
  exact session_dedup_invariant envA
    [Invocation.job "r" "T" 3 false true,
     Invocation.job "r" "T2" 3 false true]
    (trigger envA initialSession "B" "r" none false).1
    [.trig "B" "r" none false] "B" "r" (by decide) rfl rfl
